import Mathlib

/-!
# Verification of the bin2cpp binary-to-literal encoding engine

This file gives a shallow embedding of the core of `bin2cpp`
(`src/new/src/main.cpp` — the current variant, and `src/src/main.cpp` —
the legacy numeric-array variant) and proves or refutes the frozen claims
about it.

Conventions of the embedding:
* A byte is a `Nat` in `0..255`; text emitted to an output stream is a
  `List Nat` of character codes (the streams are byte streams; 34 = `"`,
  92 = backslash, 10 = LF, 9 = TAB, 13 = CR).
* `char` is modelled as signed (the platforms this code targets — MSVC,
  x86 gcc/clang — all have signed `char`): a byte `b ≥ 128` stored in a
  `char` has value `b - 256`, so `static_cast<unsigned int>(c)` yields
  `2^32 - 256 + b`, and `static_cast<int>(c)` yields `b - 256`.
* File contents are the byte lists handed to the encoder; `fs::file_size`
  of such a file is its length.
-/

/-! ## Hexadecimal rendering, as `std::ostream` with `std::hex` performs it:
minimal-width, lowercase, most significant digit first. -/

/-- Code of the lowercase hex digit for `n < 16` (`'0'..'9'`, `'a'..'f'`). -/
def hexDigitCode (n : Nat) : Nat :=
  if n < 10 then 48 + n else 87 + n

/-- Fuelled helper for `hexCodes`; the fuel is an upper bound on the number
of digits (any fuel `≥ 1` suffices for `n < 16`, and each extra digit costs
one more unit). -/
def hexCodesAux : Nat → Nat → List Nat
  | 0, _ => []
  | fuel + 1, n =>
    if n < 16 then [hexDigitCode n]
    else hexCodesAux fuel (n / 16) ++ [hexDigitCode (n % 16)]

/-- The character codes `std::ostream` emits for an unsigned value under
`std::hex`: minimal width, lowercase. -/
def hexCodes (n : Nat) : List Nat := hexCodesAux (n + 1) n

/-- Models `static_cast<unsigned int>(c)` where the signed `char` `c`
holds byte `b`: bytes `≥ 128` are sign-extended. -/
def charToUInt (b : Nat) : Nat :=
  if b < 128 then b else 2 ^ 32 - 256 + b

/-! ## The string-literal encoder of `src/new/src/main.cpp`,
`convertFileDataToCppSource` (lines 182–230).

The data-emission loop is modelled as a stream of `Chunk`s, one per
`stream <<` statement of the loop (the newline case's single write
`"\n"␊` is split into its escape text and its closing quote + newline):
`openQ` is the `stream << "\""` at the start of a segment, `unit cs` is
the escape/verbatim text for one byte, `closeNl` is the `"␊` that a
newline byte appends after its escape, `closeBlank` is the `"␊␊` written
when the width threshold is reached and at end of input. -/

inductive Chunk where
  | openQ : Chunk
  | unit : List Nat → Chunk
  | closeNl : Chunk
  | closeBlank : Chunk
  deriving DecidableEq, Repr

/-- The text written for one byte in the final `else` branch:
`stream << "\\x"; if (x < 16) stream << '0'; stream << std::hex << x;`
with `x = static_cast<unsigned int>(c)`. -/
def hexEscape (b : Nat) : List Nat :=
  let x := charToUInt b
  [92, 120] ++ (if x < 16 then [48] else []) ++ hexCodes x

/-- The escape dispatch of the loop body: given the width `w1` (after the
possible segment opening) and the byte `b`, returns the width after the
byte and the chunks its branch writes. Mirrors the `if`/`else if` chain on
`c` of the C++ loop (note `c >= 0x20 && c <= 0x7e` on a signed char holds
exactly for bytes `32..126`). -/
def unitFor (w1 : Nat) (b : Nat) : Nat × List Chunk :=
  if b = 34 then (w1 + 2, [Chunk.unit [92, 34]])
  else if b = 10 then (0, [Chunk.unit [92, 110], Chunk.closeNl])
  else if b = 13 then (w1 + 2, [Chunk.unit [92, 114]])
  else if b = 9 then (w1 + 2, [Chunk.unit [92, 116]])
  else if 32 ≤ b ∧ b ≤ 126 then (w1 + 1, [Chunk.unit [b]])
  else (w1 + 4, [Chunk.unit (hexEscape b)])

/-- One iteration of the `while (inputFile.get(c))` loop: open a segment if
the width is zero, emit the byte's text, then close the segment if the
width reached the 120 threshold. Returns the new `current_line_width` and
the chunks written. -/
def stepByte (w : Nat) (b : Nat) : Nat × List Chunk :=
  let o : Nat × List Chunk := if w = 0 then (1, [Chunk.openQ]) else (w, [])
  let u := unitFor o.1 b
  if 120 ≤ u.1 then (0, o.2 ++ u.2 ++ [Chunk.closeBlank])
  else (u.1, o.2 ++ u.2)

/-- The whole read loop, starting from width `w`. -/
def encodeLoop : Nat → List Nat → Nat × List Chunk
  | w, [] => (w, [])
  | w, b :: rest =>
    let s := stepByte w b
    let r := encodeLoop s.1 rest
    (r.1, s.2 ++ r.2)

/-- The data-literal emission for a file whose bytes are `B`: the loop from
width 0, plus the trailing `if (current_line_width > 0) stream << "\"\n\n"`. -/
def convertData (B : List Nat) : List Chunk :=
  let r := encodeLoop 0 B
  if 0 < r.1 then r.2 ++ [Chunk.closeBlank] else r.2

/-- The character codes a chunk stands for in the generated source text. -/
def renderChunk : Chunk → List Nat
  | Chunk.openQ => [34]
  | Chunk.unit cs => cs
  | Chunk.closeNl => [34, 10]
  | Chunk.closeBlank => [34, 10, 10]

def renderChunks (cs : List Chunk) : List Nat :=
  cs.flatMap renderChunk

/-- The literal text the encoder produces for byte sequence `B` (the part
of the generated file between `= ␊` and the final `;`). -/
def literalText (B : List Nat) : List Nat := renderChunks (convertData B)

/-! ## The reference decoder for the stated escaping rules.

This is the second, spec-side definition of the refinement claims: it
reverses the escaping table of spec §4.2 — segments are delimited by
unescaped `"`, layout newlines between segments carry no content, and
inside a segment `\"`, `\n`, `\r`, `\t` decode to quote/LF/CR/TAB, a
`\x` escape carries exactly two hex digits (the spec declares the hex
escape fixed-width), and any other character stands for itself. -/

/-- Is `c` the code of a hex digit (`0-9`, `a-f`, `A-F`)? -/
def isHexDigitCode (c : Nat) : Bool :=
  (48 ≤ c && c ≤ 57) || (97 ≤ c && c ≤ 102) || (65 ≤ c && c ≤ 70)

/-- Value of a hex digit code. -/
def hexVal (c : Nat) : Nat :=
  if 48 ≤ c ∧ c ≤ 57 then c - 48
  else if 97 ≤ c ∧ c ≤ 102 then c - 87
  else if 65 ≤ c ∧ c ≤ 70 then c - 55
  else 0

/-- The decoder's position: outside a segment, inside one, right after a
backslash, right after `\x`, or after `\x` and one hex digit whose value
is carried. -/
inductive DecState where
  | outside : DecState
  | inside : DecState
  | escape : DecState
  | hexHi : DecState
  | hexLo : Nat → DecState
  deriving DecidableEq, Repr

/-- Decode the literal text one character at a time. Between segments only
layout newlines may occur; inside a segment `\"`, `\n`, `\r`, `\t`
decode to quote/LF/CR/TAB, `\x` carries exactly two hex digits (the spec
declares the hex escape fixed-width), and any other character stands for
itself. `none` when the text does not follow the stated rules (stray
character between segments, dangling escape, unterminated segment). -/
def decodeRun : DecState → List Nat → Option (List Nat)
  | DecState.outside, [] => some []
  | DecState.outside, c :: cs =>
    if c = 34 then decodeRun DecState.inside cs
    else if c = 10 then decodeRun DecState.outside cs
    else none
  | DecState.inside, [] => none
  | DecState.inside, c :: cs =>
    if c = 34 then decodeRun DecState.outside cs
    else if c = 92 then decodeRun DecState.escape cs
    else (decodeRun DecState.inside cs).map (fun bs => c :: bs)
  | DecState.escape, [] => none
  | DecState.escape, c :: cs =>
    if c = 34 then (decodeRun DecState.inside cs).map (fun bs => 34 :: bs)
    else if c = 110 then (decodeRun DecState.inside cs).map (fun bs => 10 :: bs)
    else if c = 114 then (decodeRun DecState.inside cs).map (fun bs => 13 :: bs)
    else if c = 116 then (decodeRun DecState.inside cs).map (fun bs => 9 :: bs)
    else if c = 120 then decodeRun DecState.hexHi cs
    else none
  | DecState.hexHi, [] => none
  | DecState.hexHi, c :: cs =>
    if isHexDigitCode c then decodeRun (DecState.hexLo (hexVal c)) cs else none
  | DecState.hexLo _, [] => none
  | DecState.hexLo v, c :: cs =>
    if isHexDigitCode c then
      (decodeRun DecState.inside cs).map (fun bs => (16 * v + hexVal c) :: bs)
    else none

/-- Decode a full literal (starting outside any segment). -/
def decodeLit (cs : List Nat) : Option (List Nat) := decodeRun DecState.outside cs

/-! ## The legacy numeric-array encoder of `src/src/main.cpp`,
`convertFileDataToCppSource` (lines 154–171). -/

/-- Models `static_cast<int>(c)` where the signed `char` `c` holds byte
`b`. -/
def charToInt (b : Nat) : Int :=
  if b < 128 then (b : Int) else (b : Int) - 256

/-- Models `static_cast<int>(c) & 0xFF` on a two's-complement `int`:
the low 8 bits, i.e. the value modulo 256 (non-negative). -/
def maskFF (i : Int) : Nat := (i % 256).toNat

/-- The text of one numeric constant:
`stream << "0x" << std::hex << (static_cast<int>(c) & 0xFF)`. -/
def byteConst (b : Nat) : List Nat :=
  [48, 120] ++ hexCodes (maskFF (charToInt b))

/-- The `while (inputFile.get(c))` loop of the legacy encoder, carrying
`char_count`: a row break `␊␉␉` is written before a constant whenever
`char_count % 20 == 0`, then the constant and its trailing comma.
Returns the final `char_count` and the emitted codes
(10 = `␊`, 9 = `␉`, 44 = `,`). -/
def numericLoop : Nat → List Nat → Nat × List Nat
  | count, [] => (count, [])
  | count, b :: rest =>
    let brk : List Nat := if count % 20 = 0 then [10, 9, 9] else []
    let r := numericLoop (count + 1) rest
    (r.1, brk ++ byteConst b ++ [44] ++ r.2)

/-- The numeric-array literal body emitted for bytes `B` (the text between
`= {` and the closing `␊␉};`). -/
def numericLiteral (B : List Nat) : List Nat := (numericLoop 0 B).2

/-- The `fileId_data_size` constant the legacy variant declares:
`static_cast<unsigned int>(fs::file_size(fileName))`, i.e. the byte count
of the input file. -/
def numericDataSize (B : List Nat) : Nat := B.length

/-- The numeric decoder's position: between constants, after the `0`,
after the `0x`, after one hex digit (value carried), or after two hex
digits (value carried, awaiting the comma). -/
inductive NumState where
  | start : NumState
  | afterZero : NumState
  | afterX : NumState
  | oneDigit : Nat → NumState
  | twoDigits : Nat → NumState
  deriving DecidableEq, Repr

/-- Decoder for the numeric-array style, one character at a time: skip
layout (`␊` = 10, `␉` = 9) between constants; each constant is `0x`
(codes 48, 120) followed by one or two hex digits and a `,` (code 44);
the constant's value is the decoded byte. -/
def decodeNumRun : NumState → List Nat → Option (List Nat)
  | NumState.start, [] => some []
  | NumState.start, c :: cs =>
    if c = 10 ∨ c = 9 then decodeNumRun NumState.start cs
    else if c = 48 then decodeNumRun NumState.afterZero cs
    else none
  | NumState.afterZero, [] => none
  | NumState.afterZero, c :: cs =>
    if c = 120 then decodeNumRun NumState.afterX cs else none
  | NumState.afterX, [] => none
  | NumState.afterX, c :: cs =>
    if isHexDigitCode c then decodeNumRun (NumState.oneDigit (hexVal c)) cs else none
  | NumState.oneDigit _, [] => none
  | NumState.oneDigit v, c :: cs =>
    if c = 44 then (decodeNumRun NumState.start cs).map (fun bs => v :: bs)
    else if isHexDigitCode c then decodeNumRun (NumState.twoDigits (16 * v + hexVal c)) cs
    else none
  | NumState.twoDigits _, [] => none
  | NumState.twoDigits v, c :: cs =>
    if c = 44 then (decodeNumRun NumState.start cs).map (fun bs => v :: bs) else none

/-- Decode a full numeric-array literal. -/
def decodeNumeric (cs : List Nat) : Option (List Nat) := decodeNumRun NumState.start cs

/-! ## Identifier derivation (`makeFileCppVarName`, `src/new/src/main.cpp`
lines 32–46): prepend `file_`, keep ASCII letters and digits, replace any
other character by `_`. -/

/-- Is `c` an ASCII digit or letter, exactly as the C++ condition
`(c >= '0' && c <= '9') || (c >= 'A' && c <= 'Z') || (c >= 'a' && c <= 'z')`? -/
def isCppVarChar (c : Char) : Bool :=
  ('0' ≤ c && c ≤ '9') || ('A' ≤ c && c ≤ 'Z') || ('a' ≤ c && c ≤ 'z')

/-- The loop body of `makeFileCppVarName` applied to one character. -/
def cppVarChar (c : Char) : Char :=
  if isCppVarChar c then c else '_'

/-- The function `makeFileCppVarName` on the file name's characters: start from
`"file_"` and append the translation of each character in order. -/
def makeFileCppVarName (fileName : List Char) : List Char :=
  'f' :: 'i' :: 'l' :: 'e' :: '_' :: fileName.map cppVarChar

/-- Is `c` valid inside a C-family identifier (letter, digit or `_`)? -/
def isIdentChar (c : Char) : Bool :=
  isCppVarChar c || c = '_'

/-! ## File records and program options (`src/new/src/main.cpp`).

An `InputFile` pairs the name under which a discovered file is embedded
(`filePath.filename().generic_string()`) with the bytes read from it and
the derived C++ variable name. The filesystem is external to the core, so
the content travels with the record instead of being re-read from a path. -/

structure InputFile where
  /-- The name `filePath.filename().generic_string()`: the embedded, queryable key. -/
  displayName : String
  /-- The bytes of the file at `filePath`. -/
  content : List Nat
  /-- The derived variable name. -/
  cppVarName : String
  deriving DecidableEq, Repr

/-- The helper `makeInputFile`: attach the derived variable name to a discovered file. -/
def makeInputFile (displayName : String) (content : List Nat) : InputFile :=
  { displayName := displayName
    content := content
    cppVarName := String.mk (makeFileCppVarName displayName.data) }

/-- The options relevant to generation (output paths are external I/O). -/
structure Options where
  inputFiles : List InputFile
  outputBaseName : String
  namespaceName : String
  deriving Repr

/-! ## Semantics of the generated registry (`generateBodyFile`,
`src/new/src/main.cpp` lines 304–342).

`std::map<std::string, std::string>` is modelled as an association list
with pairwise-distinct keys; `operator[]` followed by assignment either
overwrites the value of an existing key or inserts a new entry (the
model keeps insertion order — `std::map` keeps keys sorted, but entry
count and per-key lookup do not depend on the order). -/

/-- Assignment `result[k] = v;` on the modelled `std::map`. -/
def mapAssign : List (String × List Nat) → String → List Nat → List (String × List Nat)
  | [], k, v => [(k, v)]
  | (k', v') :: m, k, v =>
    if k = k' then (k', v) :: m else (k', v') :: mapAssign m k v

/-- Lookup `map.find(k)` on the modelled `std::map`. -/
def mapFind : List (String × List Nat) → String → Option (List Nat)
  | [], _ => none
  | (k', v') :: m, k => if k = k' then some v' else mapFind m k

/-- A `std::string` constructed from a `const char *`: reads bytes up to
(and not including) the first NUL terminator. The generated
`result[name_x] = data_x;` and `static const std::string s_data = data_x;`
both build strings this way from the decoded character array. -/
def cppString : List Nat → List Nat
  | [] => []
  | b :: bs => if b = 0 then [] else b :: cppString bs

/-- The generated `buildEmbeddedFileMap`: one `result[name_x] = data_x;`
per input file, in file order, on an initially empty map; the stored value
is the NUL-terminated read of the file's data array. -/
def buildEmbeddedFileMap (files : List InputFile) : List (String × List Nat) :=
  files.foldl (fun m f => mapAssign m f.displayName (cppString f.content)) []

/-- The generated per-file accessor `get_x`:
`static const std::string s_data = data_x; return s_data;`. -/
def getFileContent (f : InputFile) : List Nat := cppString f.content

/-- The generated `mustGetFile`: look the name up in the assembled map and
throw (model: `Except.error` with the thrown message) when absent. -/
def mustGetFile (m : List (String × List Nat)) (fileName : String) :
    Except String (List Nat) :=
  match mapFind m fileName with
  | some v => Except.ok v
  | none => Except.error ("embedded file not found: " ++ fileName)

/-! ## The two generated documents (`generateHeaderFile` lines 241–287,
`generateBodyFile` lines 289–352), as chunk sequences in emission order. -/

/-- The include-guard token: `"GENERATED_BIN2CPP_" + namespaceName + "_H"`. -/
def includeGuard (options : Options) : String :=
  "GENERATED_BIN2CPP_" ++ options.namespaceName ++ "_H"

inductive HChunk where
  /-- The generated-file warning banner. -/
  | banner : HChunk
  /-- The lines `#ifndef g` / `#define g`. -/
  | guardOpen : String → HChunk
  /-- The lines `#include <map>` and `#include <string>`. -/
  | includes : HChunk
  /-- The line opening the namespace scope `n`. -/
  | nsOpen : String → HChunk
  /-- The line `constexpr size_t embeddedFileCount = k;`. -/
  | countDecl : Nat → HChunk
  /-- The per-file comment and `const std::string & get_var();`. -/
  | fileDecl : String → String → HChunk
  /-- The `allEmbeddedFiles` and `mustGetFile` declarations. -/
  | registryDecls : HChunk
  /-- The line closing the namespace scope `n`. -/
  | nsClose : String → HChunk
  /-- The line `#endif // g`. -/
  | guardClose : String → HChunk
  deriving DecidableEq, Repr

/-- The function `generateHeaderFile`: the declaration document in emission order. -/
def generateHeaderFile (options : Options) : List HChunk :=
  [HChunk.banner, HChunk.guardOpen (includeGuard options), HChunk.includes]
  ++ (if options.namespaceName ≠ "" then [HChunk.nsOpen options.namespaceName] else [])
  ++ [HChunk.countDecl options.inputFiles.length]
  ++ options.inputFiles.map (fun f => HChunk.fileDecl f.displayName f.cppVarName)
  ++ [HChunk.registryDecls]
  ++ (if options.namespaceName ≠ "" then [HChunk.nsClose options.namespaceName] else [])
  ++ [HChunk.guardClose (includeGuard options)]

inductive BChunk where
  /-- The generated-file warning banner. -/
  | banner : BChunk
  /-- The generated include of the companion header. -/
  | includeHdr : String → BChunk
  /-- One file's `convertFileDataToCppSource` output: the `name_var`
  string and the `data_var` literal chunks. -/
  | fileData : String → String → List Chunk → BChunk
  /-- The `static std::map … buildEmbeddedFileMap()` definition with its
  `result[name_var] = data_var;` lines, one `(displayName, var)` per file. -/
  | mapBuilder : List (String × String) → BChunk
  /-- The line opening the namespace scope `n`. -/
  | nsOpen : String → BChunk
  /-- The `get_var()` accessor definition. -/
  | accessorDef : String → BChunk
  /-- The `allEmbeddedFiles` and `mustGetFile` definitions. -/
  | registryDefs : BChunk
  /-- The closing brace of the namespace scope `n`. -/
  | nsClose : String → BChunk
  deriving DecidableEq, Repr

/-- The function `generateBodyFile`: the definition document in emission order. -/
def generateBodyFile (options : Options) (headerFileName : String) : List BChunk :=
  [BChunk.banner, BChunk.includeHdr headerFileName]
  ++ options.inputFiles.map
      (fun f => BChunk.fileData f.displayName f.cppVarName (convertData f.content))
  ++ [BChunk.mapBuilder (options.inputFiles.map (fun f => (f.displayName, f.cppVarName)))]
  ++ (if options.namespaceName ≠ "" then [BChunk.nsOpen options.namespaceName] else [])
  ++ options.inputFiles.map (fun f => BChunk.accessorDef f.cppVarName)
  ++ [BChunk.registryDefs]
  ++ (if options.namespaceName ≠ "" then [BChunk.nsClose options.namespaceName] else [])

/-! ## Views used to state the claims. -/

/-- Scan the emitted chunks for segment discipline: the flag is true while
a literal segment is open. `some b` = well-formed so far, ending with the
flag `b`; `none` = an open without close, a unit outside a segment, or a
close without open. -/
def segScan : Bool → List Chunk → Option Bool
  | inside, [] => some inside
  | inside, c :: cs =>
    match inside, c with
    | false, Chunk.openQ => segScan true cs
    | true, Chunk.unit _ => segScan true cs
    | true, Chunk.closeNl => segScan false cs
    | true, Chunk.closeBlank => segScan false cs
    | _, _ => none

/-- The total-count constants declared in a header document. -/
def headerCountDecls (cs : List HChunk) : List Nat :=
  cs.filterMap (fun c => match c with | HChunk.countDecl k => some k | _ => none)

/-- The per-file accessor declarations of a header document, in order. -/
def headerFileDecls (cs : List HChunk) : List (String × String) :=
  cs.filterMap (fun c => match c with | HChunk.fileDecl n v => some (n, v) | _ => none)

/-- The per-file data definitions of a body document, in order. -/
def bodyFileDatas (cs : List BChunk) : List (String × String) :=
  cs.filterMap (fun c => match c with | BChunk.fileData n v _ => some (n, v) | _ => none)

/-- The per-file accessor definitions of a body document, in order. -/
def bodyAccessorDefs (cs : List BChunk) : List String :=
  cs.filterMap (fun c => match c with | BChunk.accessorDef v => some v | _ => none)

def isNsOpenH : HChunk → Bool
  | HChunk.nsOpen _ => true
  | _ => false

def isNsCloseH : HChunk → Bool
  | HChunk.nsClose _ => true
  | _ => false

/-- The header chunks nested inside the named scope: everything between
the first `namespace … {` and the following `}`. -/
def insideNsH (cs : List HChunk) : List HChunk :=
  ((cs.dropWhile (fun c => !isNsOpenH c)).drop 1).takeWhile (fun c => !isNsCloseH c)

def isNsOpenB : BChunk → Bool
  | BChunk.nsOpen _ => true
  | _ => false

def isNsCloseB : BChunk → Bool
  | BChunk.nsClose _ => true
  | _ => false

/-- The body chunks nested inside the named scope. -/
def insideNsB (cs : List BChunk) : List BChunk :=
  ((cs.dropWhile (fun c => !isNsOpenB c)).drop 1).takeWhile (fun c => !isNsCloseB c)

/-! # Theorems -/

/-! ### Hexadecimal digit lemmas -/

theorem hexCodesAux_one (fuel n : Nat) (h : n < 16) :
    hexCodesAux (fuel + 1) n = [hexDigitCode n] := by
  simp [hexCodesAux, h]

theorem hexCodesAux_two (fuel n : Nat) (h1 : 16 ≤ n) (h2 : n < 256) :
    hexCodesAux (fuel + 2) n = [hexDigitCode (n / 16), hexDigitCode (n % 16)] := by
  have h3 : ¬ n < 16 := by omega
  have h4 : n / 16 < 16 := by omega
  simp [hexCodesAux, h3, h4]

theorem hexCodes_single (n : Nat) (h : n < 16) : hexCodes n = [hexDigitCode n] := by
  simpa [hexCodes] using hexCodesAux_one n n h

theorem hexCodes_pair (n : Nat) (h1 : 16 ≤ n) (h2 : n < 256) :
    hexCodes n = [hexDigitCode (n / 16), hexDigitCode (n % 16)] := by
  obtain ⟨m, rfl⟩ : ∃ m, n = m + 16 := ⟨n - 16, by omega⟩
  exact hexCodesAux_two (m + 15) (m + 16) h1 h2

theorem hexDigit_inv : ∀ n < 16,
    isHexDigitCode (hexDigitCode n) = true ∧ hexVal (hexDigitCode n) = n := by
  decide

/-! ### Identifier derivation -/

theorem cppVarChar_ident (c : Char) : isIdentChar (cppVarChar c) = true := by
  by_cases h : isCppVarChar c
  · simp [cppVarChar, isIdentChar, h]
  · simp [cppVarChar, isIdentChar, h]

/-- C4: `makeFileCppVarName` is a pure function of the file name that
prepends the fixed prefix `file_` and maps each character to itself when
it is an ASCII letter or digit and to `_` otherwise (no case folding);
it never fails, the empty name yields exactly the prefix, the output
length is the prefix length plus the name length, and the result is a
valid C-family identifier: non-empty, starting with the letter `f`, all
characters letters/digits/underscore. -/
theorem makeFileCppVarName_valid (name : List Char) :
    makeFileCppVarName name ≠ []
    ∧ makeFileCppVarName [] = "file_".data
    ∧ (makeFileCppVarName name).length = "file_".length + name.length
    ∧ (makeFileCppVarName name).head? = some 'f'
    ∧ (makeFileCppVarName name).all isIdentChar = true
    ∧ (makeFileCppVarName name).take 5 = "file_".data
    ∧ (makeFileCppVarName name).drop 5 = name.map cppVarChar := by
  refine ⟨by simp [makeFileCppVarName], rfl, ?_, rfl, ?_, rfl, rfl⟩
  · simp [makeFileCppVarName, show "file_".length = 5 from rfl]
    omega
  · simp only [makeFileCppVarName, List.all_cons, List.all_map, Bool.and_eq_true]
    refine ⟨by decide, by decide, by decide, by decide, by decide, ?_⟩
    rw [List.all_eq_true]
    intro c _
    exact cppVarChar_ident c

/-! ### The assembled registry map -/

theorem mapFind_assign_self (m : List (String × List Nat)) (k : String) (v : List Nat) :
    mapFind (mapAssign m k v) k = some v := by
  induction m with
  | nil => simp [mapAssign, mapFind]
  | cons e m ih =>
    obtain ⟨k', v'⟩ := e
    by_cases h : k = k'
    · simp [mapAssign, mapFind, h]
    · simp [mapAssign, mapFind, h, ih]

theorem mapFind_assign_ne (m : List (String × List Nat)) (k n : String) (v : List Nat)
    (h : n ≠ k) : mapFind (mapAssign m k v) n = mapFind m n := by
  induction m with
  | nil => simp [mapAssign, mapFind, h]
  | cons e m ih =>
    obtain ⟨k', v'⟩ := e
    by_cases h2 : k = k'
    · subst h2
      simp [mapAssign, mapFind, h]
    · by_cases h3 : n = k'
      · simp [mapAssign, mapFind, h2, h3]
      · simp [mapAssign, mapFind, h2, h3, ih]

theorem mapAssign_keys (m : List (String × List Nat)) (k : String) (v : List Nat) :
    (mapAssign m k v).map Prod.fst =
      if k ∈ m.map Prod.fst then m.map Prod.fst else m.map Prod.fst ++ [k] := by
  induction m with
  | nil => simp [mapAssign]
  | cons e m ih =>
    obtain ⟨k', v'⟩ := e
    by_cases h : k = k'
    · simp [mapAssign, h]
    · by_cases h2 : k ∈ m.map Prod.fst
      · simp [mapAssign, h, Ne.symm h, h2, ih]
      · simp [mapAssign, h, Ne.symm h, h2, ih]

theorem mapAssign_length (m : List (String × List Nat)) (k : String) (v : List Nat) :
    (mapAssign m k v).length =
      if k ∈ m.map Prod.fst then m.length else m.length + 1 := by
  have h2 := congrArg List.length (mapAssign_keys m k v)
  simp only [List.length_map] at h2
  by_cases h : k ∈ m.map Prod.fst
  · simpa [h] using h2
  · simpa [h] using h2

theorem mapAssign_nodup (m : List (String × List Nat)) (k : String) (v : List Nat)
    (h : (m.map Prod.fst).Nodup) : ((mapAssign m k v).map Prod.fst).Nodup := by
  rw [mapAssign_keys]
  by_cases hk : k ∈ m.map Prod.fst
  · simpa [hk] using h
  · simp [hk, List.nodup_append, h]

theorem mapFind_eq_none (m : List (String × List Nat)) (n : String) :
    mapFind m n = none ↔ n ∉ m.map Prod.fst := by
  induction m with
  | nil => simp [mapFind]
  | cons e m ih =>
    obtain ⟨k', v'⟩ := e
    by_cases h : n = k'
    · simp [mapFind, h]
    · simp [mapFind, h, ih]

theorem buildMap_append (files : List InputFile) (f : InputFile) :
    buildEmbeddedFileMap (files ++ [f]) =
      mapAssign (buildEmbeddedFileMap files) f.displayName (cppString f.content) := by
  simp [buildEmbeddedFileMap, List.foldl_append]

theorem buildMap_find (files : List InputFile) (n : String) :
    mapFind (buildEmbeddedFileMap files) n =
      ((files.filter (fun f => f.displayName = n)).getLast?).map
        (fun f => cppString f.content) := by
  induction files using List.reverseRecOn with
  | nil => simp [buildEmbeddedFileMap, mapFind]
  | append_singleton files f ih =>
    rw [buildMap_append]
    by_cases h : n = f.displayName
    · subst h
      rw [mapFind_assign_self]
      have hf : (files ++ [f]).filter (fun g => g.displayName = f.displayName)
          = files.filter (fun g => g.displayName = f.displayName) ++ [f] := by
        simp [List.filter_append]
      rw [hf, List.getLast?_concat]
      simp
    · rw [mapFind_assign_ne _ _ _ _ h, ih]
      have hf : (files ++ [f]).filter (fun g => g.displayName = n)
          = files.filter (fun g => g.displayName = n) := by
        simp [List.filter_append, Ne.symm h]
      rw [hf]

theorem buildMap_mem_keys (files : List InputFile) (n : String) :
    n ∈ (buildEmbeddedFileMap files).map Prod.fst ↔
      n ∈ files.map (fun f => f.displayName) := by
  rw [← not_iff_not, ← mapFind_eq_none, buildMap_find]
  simp only [Option.map_eq_none', List.getLast?_eq_none_iff, List.filter_eq_nil_iff]
  constructor
  · intro h hm
    obtain ⟨f, hf, rfl⟩ := List.mem_map.1 hm
    exact h f hf (by simp)
  · intro h f hf hfn
    exact h (List.mem_map.2 ⟨f, hf, by simpa using hfn⟩)

theorem buildMap_nodup (files : List InputFile) :
    ((buildEmbeddedFileMap files).map Prod.fst).Nodup := by
  induction files using List.reverseRecOn with
  | nil => simp [buildEmbeddedFileMap]
  | append_singleton files f ih =>
    rw [buildMap_append]
    exact mapAssign_nodup _ _ _ ih

theorem buildMap_length (files : List InputFile)
    (h : (files.map (fun f => f.displayName)).Nodup) :
    (buildEmbeddedFileMap files).length = files.length := by
  induction files using List.reverseRecOn with
  | nil => simp [buildEmbeddedFileMap]
  | append_singleton files f ih =>
    rw [List.map_append, List.nodup_append] at h
    obtain ⟨h1, _, h3⟩ := h
    have hk : f.displayName ∉ (buildEmbeddedFileMap files).map Prod.fst := by
      rw [buildMap_mem_keys]
      intro hm
      exact h3 hm (by simp)
    rw [buildMap_append, mapAssign_length, if_neg hk, ih h1]
    simp

/-- C5: if two InputFiles share a `displayName`, the assembled registry
map ends up with exactly one entry under that name (the key occurs once),
and the surviving value is the one built from the LAST file carrying that
name — the later InputFile silently overwrites the earlier one
(`result[name] = data` on a `std::map` assigns over an existing key). -/
theorem registry_last_write_wins (files : List InputFile) (n : String)
    (h : n ∈ files.map (fun f => f.displayName)) :
    ((buildEmbeddedFileMap files).map Prod.fst).count n = 1
    ∧ mapFind (buildEmbeddedFileMap files) n =
        ((files.filter (fun f => f.displayName = n)).getLast?).map
          (fun f => cppString f.content) :=
  ⟨List.count_eq_one_of_mem (buildMap_nodup files) ((buildMap_mem_keys files n).2 h),
   buildMap_find files n⟩

theorem registry_last_write_wins_witness :
    ("x.bin" ∈ ([makeInputFile "x.bin" [65], makeInputFile "x.bin" [66]].map
        (fun f => f.displayName)))
    ∧ (((buildEmbeddedFileMap [makeInputFile "x.bin" [65], makeInputFile "x.bin" [66]]).map
          Prod.fst).count "x.bin" = 1
       ∧ mapFind (buildEmbeddedFileMap [makeInputFile "x.bin" [65], makeInputFile "x.bin" [66]])
            "x.bin" =
          (([makeInputFile "x.bin" [65], makeInputFile "x.bin" [66]].filter
              (fun f => f.displayName = "x.bin")).getLast?).map (fun f => cppString f.content)) :=
  ⟨by decide, registry_last_write_wins [makeInputFile "x.bin" [65], makeInputFile "x.bin" [66]]
      "x.bin" (by decide)⟩

/-- C6: querying the generated registry's `mustGetFile` for a name absent
from every InputFile yields the distinct, catchable lookup-miss failure
(the thrown `runtime_error`), never an empty or default value. -/
theorem mustGetFile_miss (files : List InputFile) (n : String)
    (h : n ∉ files.map (fun f => f.displayName)) :
    mustGetFile (buildEmbeddedFileMap files) n
      = Except.error ("embedded file not found: " ++ n) := by
  have hn : mapFind (buildEmbeddedFileMap files) n = none := by
    rw [mapFind_eq_none, buildMap_mem_keys]
    exact h
  simp [mustGetFile, hn]

theorem mustGetFile_miss_witness :
    ("missing.bin" ∉ ([makeInputFile "a.bin" [65]].map (fun f => f.displayName)))
    ∧ mustGetFile (buildEmbeddedFileMap [makeInputFile "a.bin" [65]]) "missing.bin"
        = Except.error ("embedded file not found: " ++ "missing.bin") :=
  ⟨by decide, mustGetFile_miss [makeInputFile "a.bin" [65]] "missing.bin" (by decide)⟩

/-! ### NUL truncation in the generated registry -/

theorem cppString_takeWhile (B : List Nat) :
    cppString B = B.takeWhile (fun b => b != 0) := by
  induction B with
  | nil => simp [cppString]
  | cons b bs ih =>
    by_cases h : b = 0
    · simp [cppString, List.takeWhile_cons, h]
    · simp [cppString, List.takeWhile_cons, h, ih]

theorem cppString_ne_self (B : List Nat) (h : 0 ∈ B) : cppString B ≠ B := by
  induction B with
  | nil => simp at h
  | cons b bs ih =>
    by_cases hb : b = 0
    · subst hb
      simp [cppString]
    · have h2 : 0 ∈ bs := by
        rcases List.mem_cons.1 h with h3 | h3
        · exact absurd h3.symm hb
        · exact h3
      simpa [cppString, hb] using ih h2

/-- C10: for an embedded file whose content contains a 0x00 byte, the
generated registry map entry and the generated per-file accessor hold only
the bytes preceding the first 0x00: both build a `std::string` from the
NUL-terminated `data_x` pointer without a length, so the stored content is
a strict truncation of the file's bytes. -/
theorem nul_truncation (files : List InputFile) (f : InputFile) (n : String)
    (hlast : (files.filter (fun g => g.displayName = n)).getLast? = some f)
    (h0 : 0 ∈ f.content) :
    mapFind (buildEmbeddedFileMap files) n
      = some (f.content.takeWhile (fun b => b != 0))
    ∧ getFileContent f = f.content.takeWhile (fun b => b != 0)
    ∧ getFileContent f ≠ f.content := by
  refine ⟨?_, ?_, ?_⟩
  · rw [buildMap_find, hlast]
    simp [cppString_takeWhile]
  · simp [getFileContent, cppString_takeWhile]
  · simpa [getFileContent] using cppString_ne_self f.content h0

theorem nul_truncation_witness :
    (([makeInputFile "f.bin" [65, 0, 66]].filter
        (fun g => g.displayName = "f.bin")).getLast? = some (makeInputFile "f.bin" [65, 0, 66])
     ∧ 0 ∈ (makeInputFile "f.bin" [65, 0, 66]).content)
    ∧ (mapFind (buildEmbeddedFileMap [makeInputFile "f.bin" [65, 0, 66]]) "f.bin"
        = some ((makeInputFile "f.bin" [65, 0, 66]).content.takeWhile (fun b => b != 0))
       ∧ getFileContent (makeInputFile "f.bin" [65, 0, 66])
          = (makeInputFile "f.bin" [65, 0, 66]).content.takeWhile (fun b => b != 0)
       ∧ getFileContent (makeInputFile "f.bin" [65, 0, 66])
          ≠ (makeInputFile "f.bin" [65, 0, 66]).content) :=
  ⟨⟨by decide, by decide⟩,
   nul_truncation [makeInputFile "f.bin" [65, 0, 66]] (makeInputFile "f.bin" [65, 0, 66])
     "f.bin" (by decide) (by decide)⟩

theorem filterMap_some_comp {α β : Type} (g : α → β) (l : List α) :
    l.filterMap (fun x => some (g x)) = l.map g := by
  induction l <;> simp [List.filterMap_cons, *]

theorem filterMap_const_none {α β : Type} (l : List α) :
    l.filterMap (fun _ => (none : Option β)) = [] := by
  induction l <;> simp [List.filterMap_cons, *]

/-- C7: absent name collisions, the assembled name→content map has exactly
one entry per InputFile; the declared total-count constant equals the
number of InputFiles; and the per-file declarations in the header and the
per-file data and accessor definitions in the body appear in exactly the
input order. -/
theorem registry_completeness (options : Options) (hdr : String)
    (h : (options.inputFiles.map (fun f => f.displayName)).Nodup) :
    (buildEmbeddedFileMap options.inputFiles).length = options.inputFiles.length
    ∧ headerCountDecls (generateHeaderFile options) = [options.inputFiles.length]
    ∧ headerFileDecls (generateHeaderFile options)
        = options.inputFiles.map (fun f => (f.displayName, f.cppVarName))
    ∧ bodyFileDatas (generateBodyFile options hdr)
        = options.inputFiles.map (fun f => (f.displayName, f.cppVarName))
    ∧ bodyAccessorDefs (generateBodyFile options hdr)
        = options.inputFiles.map (fun f => f.cppVarName) := by
  refine ⟨buildMap_length _ h, ?_, ?_, ?_, ?_⟩ <;>
  · rcases eq_or_ne options.namespaceName "" with hn | hn <;>
      simp [generateHeaderFile, generateBodyFile, headerCountDecls, headerFileDecls,
        bodyFileDatas, bodyAccessorDefs, hn, List.filterMap_append, List.filterMap_map,
        Function.comp_def, filterMap_some_comp, filterMap_const_none]

theorem registry_completeness_witness :
    (([makeInputFile "a.bin" [65], makeInputFile "b.bin" [66]].map
        (fun f => f.displayName)).Nodup)
    ∧ ((buildEmbeddedFileMap [makeInputFile "a.bin" [65], makeInputFile "b.bin" [66]]).length
        = [makeInputFile "a.bin" [65], makeInputFile "b.bin" [66]].length
       ∧ headerCountDecls (generateHeaderFile
            { inputFiles := [makeInputFile "a.bin" [65], makeInputFile "b.bin" [66]],
              outputBaseName := "embedded_files", namespaceName := "" })
          = [[makeInputFile "a.bin" [65], makeInputFile "b.bin" [66]].length]
       ∧ headerFileDecls (generateHeaderFile
            { inputFiles := [makeInputFile "a.bin" [65], makeInputFile "b.bin" [66]],
              outputBaseName := "embedded_files", namespaceName := "" })
          = [makeInputFile "a.bin" [65], makeInputFile "b.bin" [66]].map
              (fun f => (f.displayName, f.cppVarName))
       ∧ bodyFileDatas (generateBodyFile
            { inputFiles := [makeInputFile "a.bin" [65], makeInputFile "b.bin" [66]],
              outputBaseName := "embedded_files", namespaceName := "" } "embedded_files.h")
          = [makeInputFile "a.bin" [65], makeInputFile "b.bin" [66]].map
              (fun f => (f.displayName, f.cppVarName))
       ∧ bodyAccessorDefs (generateBodyFile
            { inputFiles := [makeInputFile "a.bin" [65], makeInputFile "b.bin" [66]],
              outputBaseName := "embedded_files", namespaceName := "" } "embedded_files.h")
          = [makeInputFile "a.bin" [65], makeInputFile "b.bin" [66]].map
              (fun f => f.cppVarName)) :=
  ⟨by decide,
   registry_completeness
     { inputFiles := [makeInputFile "a.bin" [65], makeInputFile "b.bin" [66]],
       outputBaseName := "embedded_files", namespaceName := "" }
     "embedded_files.h" (by decide)⟩

/-! ### Namespace wrapping -/

theorem dropWhile_append_all {α : Type} (p : α → Bool) (l1 l2 : List α)
    (h : l1.all p = true) : (l1 ++ l2).dropWhile p = l2.dropWhile p := by
  induction l1 with
  | nil => simp
  | cons a l ih =>
    simp only [List.all_cons, Bool.and_eq_true] at h
    simp [List.dropWhile_cons, h.1, ih h.2]

theorem takeWhile_append_all {α : Type} (p : α → Bool) (l1 l2 : List α)
    (h : l1.all p = true) : (l1 ++ l2).takeWhile p = l1 ++ l2.takeWhile p := by
  induction l1 with
  | nil => simp
  | cons a l ih =>
    simp only [List.all_cons, Bool.and_eq_true] at h
    simp [List.takeWhile_cons, h.1, ih h.2]

theorem insideNsH_eq (pre mid post : List HChunk) (n : String)
    (hpre : pre.all (fun c => !isNsOpenH c) = true)
    (hmid : mid.all (fun c => !isNsCloseH c) = true) :
    insideNsH (pre ++ HChunk.nsOpen n :: (mid ++ HChunk.nsClose n :: post)) = mid := by
  unfold insideNsH
  rw [dropWhile_append_all _ pre _ hpre]
  have h1 : List.dropWhile (fun c => !isNsOpenH c)
      (HChunk.nsOpen n :: (mid ++ HChunk.nsClose n :: post))
      = HChunk.nsOpen n :: (mid ++ HChunk.nsClose n :: post) := by
    simp [List.dropWhile_cons, isNsOpenH]
  rw [h1]
  simp only [List.drop_succ_cons, List.drop_zero]
  rw [takeWhile_append_all _ mid _ hmid]
  simp [List.takeWhile_cons, isNsCloseH]

theorem insideNsB_eq (pre mid post : List BChunk) (n : String)
    (hpre : pre.all (fun c => !isNsOpenB c) = true)
    (hmid : mid.all (fun c => !isNsCloseB c) = true) :
    insideNsB (pre ++ BChunk.nsOpen n :: (mid ++ BChunk.nsClose n :: post)) = mid := by
  unfold insideNsB
  rw [dropWhile_append_all _ pre _ hpre]
  have h1 : List.dropWhile (fun c => !isNsOpenB c)
      (BChunk.nsOpen n :: (mid ++ BChunk.nsClose n :: post))
      = BChunk.nsOpen n :: (mid ++ BChunk.nsClose n :: post) := by
    simp [List.dropWhile_cons, isNsOpenB]
  rw [h1]
  simp only [List.drop_succ_cons, List.drop_zero]
  rw [takeWhile_append_all _ mid _ hmid]
  simp [List.takeWhile_cons, isNsCloseB]

/-- C9 counterexample: with a namespace supplied, the definition document
contains the private map-builder definition (and likewise the per-file
data definitions) OUTSIDE the named scope — the generated body emits
`name_x`/`data_x` and `buildEmbeddedFileMap` before `namespace … {`
opens — refuting "every declaration and every definition is nested inside
that scope identically in both documents". -/
theorem namespace_wrapping_cex :
    BChunk.mapBuilder [("a.bin", "file_a_bin")]
      ∈ generateBodyFile
          { inputFiles := [makeInputFile "a.bin" [65]],
            outputBaseName := "embedded_files", namespaceName := "myNS" }
          "embedded_files.h"
    ∧ BChunk.mapBuilder [("a.bin", "file_a_bin")]
      ∉ insideNsB (generateBodyFile
          { inputFiles := [makeInputFile "a.bin" [65]],
            outputBaseName := "embedded_files", namespaceName := "myNS" }
          "embedded_files.h") := by
  decide

/-- C9 (amended): when a scope name is supplied, every declaration of the
declaration document (the count constant, the per-file accessor
declarations and the registry operations) is nested inside the scope, and
in the definition document the public accessor definitions and registry
operation definitions are nested inside the same scope, while the
per-file data definitions and the private map-builder remain outside
(before) the scope; the scope name also feeds the include-guard token of
the declaration document. -/
theorem namespace_wrapping (options : Options) (hdr : String)
    (h : options.namespaceName ≠ "") :
    generateHeaderFile options =
      [HChunk.banner, HChunk.guardOpen (includeGuard options), HChunk.includes]
      ++ HChunk.nsOpen options.namespaceName
        :: (([HChunk.countDecl options.inputFiles.length]
            ++ options.inputFiles.map (fun f => HChunk.fileDecl f.displayName f.cppVarName)
            ++ [HChunk.registryDecls])
          ++ HChunk.nsClose options.namespaceName
            :: [HChunk.guardClose (includeGuard options)])
    ∧ insideNsH (generateHeaderFile options) =
        [HChunk.countDecl options.inputFiles.length]
        ++ options.inputFiles.map (fun f => HChunk.fileDecl f.displayName f.cppVarName)
        ++ [HChunk.registryDecls]
    ∧ generateBodyFile options hdr =
      ([BChunk.banner, BChunk.includeHdr hdr]
        ++ options.inputFiles.map
            (fun f => BChunk.fileData f.displayName f.cppVarName (convertData f.content))
        ++ [BChunk.mapBuilder (options.inputFiles.map (fun f => (f.displayName, f.cppVarName)))])
      ++ BChunk.nsOpen options.namespaceName
        :: ((options.inputFiles.map (fun f => BChunk.accessorDef f.cppVarName)
            ++ [BChunk.registryDefs])
          ++ BChunk.nsClose options.namespaceName :: [])
    ∧ insideNsB (generateBodyFile options hdr) =
        options.inputFiles.map (fun f => BChunk.accessorDef f.cppVarName)
        ++ [BChunk.registryDefs]
    ∧ includeGuard options = "GENERATED_BIN2CPP_" ++ options.namespaceName ++ "_H" := by
  have hH : generateHeaderFile options =
      [HChunk.banner, HChunk.guardOpen (includeGuard options), HChunk.includes]
      ++ HChunk.nsOpen options.namespaceName
        :: (([HChunk.countDecl options.inputFiles.length]
            ++ options.inputFiles.map (fun f => HChunk.fileDecl f.displayName f.cppVarName)
            ++ [HChunk.registryDecls])
          ++ HChunk.nsClose options.namespaceName
            :: [HChunk.guardClose (includeGuard options)]) := by
    simp [generateHeaderFile, h]
  have hB : generateBodyFile options hdr =
      ([BChunk.banner, BChunk.includeHdr hdr]
        ++ options.inputFiles.map
            (fun f => BChunk.fileData f.displayName f.cppVarName (convertData f.content))
        ++ [BChunk.mapBuilder (options.inputFiles.map (fun f => (f.displayName, f.cppVarName)))])
      ++ BChunk.nsOpen options.namespaceName
        :: ((options.inputFiles.map (fun f => BChunk.accessorDef f.cppVarName)
            ++ [BChunk.registryDefs])
          ++ BChunk.nsClose options.namespaceName :: []) := by
    simp [generateBodyFile, h]
  refine ⟨hH, ?_, hB, ?_, rfl⟩
  · rw [hH]
    refine insideNsH_eq _ _ _ _ ?_ ?_
    · simp [isNsOpenH]
    · simp [List.all_append, List.all_map, isNsCloseH, List.all_eq_true]
  · rw [hB]
    refine insideNsB_eq _ _ _ _ ?_ ?_
    · simp [List.all_append, List.all_map, isNsOpenB, List.all_eq_true]
    · simp [List.all_append, List.all_map, isNsCloseB, List.all_eq_true]

theorem namespace_wrapping_witness :
    (({ inputFiles := [makeInputFile "a.bin" [65]],
        outputBaseName := "embedded_files", namespaceName := "myNS" : Options}).namespaceName ≠ "")
    ∧ (generateHeaderFile
        { inputFiles := [makeInputFile "a.bin" [65]],
          outputBaseName := "embedded_files", namespaceName := "myNS" } =
      [HChunk.banner,
       HChunk.guardOpen (includeGuard
        { inputFiles := [makeInputFile "a.bin" [65]],
          outputBaseName := "embedded_files", namespaceName := "myNS" }), HChunk.includes]
      ++ HChunk.nsOpen "myNS"
        :: (([HChunk.countDecl [makeInputFile "a.bin" [65]].length]
            ++ [makeInputFile "a.bin" [65]].map
                (fun f => HChunk.fileDecl f.displayName f.cppVarName)
            ++ [HChunk.registryDecls])
          ++ HChunk.nsClose "myNS"
            :: [HChunk.guardClose (includeGuard
              { inputFiles := [makeInputFile "a.bin" [65]],
                outputBaseName := "embedded_files", namespaceName := "myNS" })])
    ∧ insideNsH (generateHeaderFile
        { inputFiles := [makeInputFile "a.bin" [65]],
          outputBaseName := "embedded_files", namespaceName := "myNS" }) =
        [HChunk.countDecl [makeInputFile "a.bin" [65]].length]
        ++ [makeInputFile "a.bin" [65]].map (fun f => HChunk.fileDecl f.displayName f.cppVarName)
        ++ [HChunk.registryDecls]
    ∧ generateBodyFile
        { inputFiles := [makeInputFile "a.bin" [65]],
          outputBaseName := "embedded_files", namespaceName := "myNS" } "embedded_files.h" =
      ([BChunk.banner, BChunk.includeHdr "embedded_files.h"]
        ++ [makeInputFile "a.bin" [65]].map
            (fun f => BChunk.fileData f.displayName f.cppVarName (convertData f.content))
        ++ [BChunk.mapBuilder ([makeInputFile "a.bin" [65]].map
            (fun f => (f.displayName, f.cppVarName)))])
      ++ BChunk.nsOpen "myNS"
        :: (([makeInputFile "a.bin" [65]].map (fun f => BChunk.accessorDef f.cppVarName)
            ++ [BChunk.registryDefs])
          ++ BChunk.nsClose "myNS" :: [])
    ∧ insideNsB (generateBodyFile
        { inputFiles := [makeInputFile "a.bin" [65]],
          outputBaseName := "embedded_files", namespaceName := "myNS" } "embedded_files.h") =
        [makeInputFile "a.bin" [65]].map (fun f => BChunk.accessorDef f.cppVarName)
        ++ [BChunk.registryDefs]
    ∧ includeGuard
        { inputFiles := [makeInputFile "a.bin" [65]],
          outputBaseName := "embedded_files", namespaceName := "myNS" }
        = "GENERATED_BIN2CPP_" ++ "myNS" ++ "_H") :=
  ⟨by decide,
   namespace_wrapping
     { inputFiles := [makeInputFile "a.bin" [65]],
       outputBaseName := "embedded_files", namespaceName := "myNS" }
     "embedded_files.h" (by decide)⟩

/-! ### Line wrapping and segment discipline -/

theorem encodeLoop_cons (w b : Nat) (rest : List Nat) :
    encodeLoop w (b :: rest)
      = ((encodeLoop (stepByte w b).1 rest).1,
         (stepByte w b).2 ++ (encodeLoop (stepByte w b).1 rest).2) := rfl

theorem segScan_append (s : Bool) (a b : List Chunk) :
    segScan s (a ++ b) = (segScan s a).bind (fun s2 => segScan s2 b) := by
  induction a generalizing s with
  | nil => simp [segScan]
  | cons c cs ih =>
    cases s <;> cases c <;> simp [segScan, ih]

theorem segScan_step (w b : Nat) :
    segScan (if w = 0 then false else true) (stepByte w b).2
      = some (if (stepByte w b).1 = 0 then false else true) := by
  by_cases hw : w = 0 <;>
    · simp only [stepByte, unitFor, hw, if_true, if_false]
      split_ifs <;> simp_all [segScan]

theorem segScan_loop (B : List Nat) (w : Nat) :
    segScan (if w = 0 then false else true) (encodeLoop w B).2
      = some (if (encodeLoop w B).1 = 0 then false else true) := by
  induction B generalizing w with
  | nil => simp [encodeLoop, segScan]
  | cons b rest ih =>
    rw [encodeLoop_cons, segScan_append, segScan_step]
    exact ih (stepByte w b).1

theorem segScan_convertData (B : List Nat) : segScan false (convertData B) = some false := by
  unfold convertData
  have h : segScan false (encodeLoop 0 B).2
      = some (if (encodeLoop 0 B).1 = 0 then false else true) := by
    simpa using segScan_loop B 0
  by_cases h0 : 0 < (encodeLoop 0 B).1
  · rw [if_pos h0, segScan_append, h, if_neg (by omega)]
    simp [segScan]
  · rw [if_neg h0]
    rw [h, if_pos (by omega)]

/-- C3: a literal segment is closed exactly when (a) the width counter,
after emitting a byte's unit, has reached the fixed threshold 120, or
(b) the emitted byte is a newline (regardless of the counter), or (c) the
input ends with a non-zero counter (the final close in `convertData`); in
every such case the counter resets to zero; a segment is opened exactly
when the counter is zero; and the chunks of the whole emission are
perfectly bracketed — every opened segment is closed by end of input
(`segScan` returns `some false`: well-formed, ending outside a segment). -/
theorem line_wrap_discipline :
    (∀ w b, ((stepByte w b).1 = 0
      ↔ (b = 10 ∨ 120 ≤ (unitFor (if w = 0 then 1 else w) b).1)))
    ∧ (∀ w b, ((stepByte w b).2.head? = some Chunk.openQ ↔ w = 0))
    ∧ (∀ B, segScan false (convertData B) = some false) := by
  refine ⟨?_, ?_, segScan_convertData⟩
  · intro w b
    by_cases hw : w = 0 <;>
      · simp only [stepByte, unitFor, hw, if_true, if_false]
        split_ifs <;> simp_all
  · intro w b
    by_cases hw : w = 0 <;>
      · simp only [stepByte, unitFor, hw, if_true, if_false]
        split_ifs <;> simp_all [hexEscape]

/-! ### Round-trip of the string-literal encoding -/

theorem renderChunks_append (a b : List Chunk) :
    renderChunks (a ++ b) = renderChunks a ++ renderChunks b := by
  simp [renderChunks]

theorem decode_quote_close (l : List Nat) :
    decodeRun DecState.inside (34 :: 10 :: 10 :: l) = decodeRun DecState.outside l := by
  simp [decodeRun]

theorem unitFor_fst_eq_zero (w1 b : Nat) (hw1 : w1 ≠ 0) :
    ((unitFor w1 b).1 = 0 ↔ b = 10) := by
  simp only [unitFor]
  split_ifs <;> simp_all

theorem decode_unit (b : Nat) (hb : b < 128) (hb92 : b ≠ 92) (w1 : Nat) (l : List Nat) :
    decodeRun DecState.inside (renderChunks (unitFor w1 b).2 ++ l)
      = (decodeRun (if b = 10 then DecState.outside else DecState.inside) l).map
          (fun bs => b :: bs) := by
  by_cases hq : b = 34
  · subst hq
    simp [unitFor, renderChunks, renderChunk, decodeRun]
  · by_cases hn : b = 10
    · subst hn
      simp [unitFor, renderChunks, renderChunk, decodeRun]
    · by_cases hr : b = 13
      · subst hr
        simp [unitFor, renderChunks, renderChunk, decodeRun]
      · by_cases ht : b = 9
        · subst ht
          simp [unitFor, renderChunks, renderChunk, decodeRun]
        · by_cases hp : 32 ≤ b ∧ b ≤ 126
          · simp [unitFor, hq, hn, hr, ht, hp, renderChunks, renderChunk, decodeRun, hb92]
          · have hcu : charToUInt b = b := by simp [charToUInt, hb]
            have h48 : isHexDigitCode 48 = true := by decide
            have hv48 : hexVal 48 = 0 := by decide
            by_cases h16 : b < 16
            · have hd := hexDigit_inv b h16
              simp [unitFor, hq, hn, hr, ht, hp, renderChunks, renderChunk, hexEscape, hcu,
                h16, hexCodes_single b h16, decodeRun, hd.1, hd.2, h48, hv48]
            · have hd1 := hexDigit_inv (b / 16) (by omega)
              have hd2 := hexDigit_inv (b % 16) (by omega)
              simp [unitFor, hq, hn, hr, ht, hp, renderChunks, renderChunk, hexEscape, hcu,
                h16, hexCodes_pair b (by omega) (by omega), decodeRun,
                hd1.1, hd1.2, hd2.1, hd2.2, Nat.div_add_mod]

theorem decode_open (l : List Nat) :
    decodeRun DecState.outside (34 :: l) = decodeRun DecState.inside l := by
  simp [decodeRun]

theorem step_decode (w b : Nat) (hb : b < 128) (hb92 : b ≠ 92) (tail : List Nat) :
    decodeRun (if w = 0 then DecState.outside else DecState.inside)
        (renderChunks (stepByte w b).2 ++ tail)
      = (decodeRun (if (stepByte w b).1 = 0 then DecState.outside else DecState.inside)
          tail).map (fun bs => b :: bs) := by
  by_cases hw : w = 0
  · simp only [stepByte, hw, if_true]
    by_cases h120 : 120 ≤ (unitFor 1 b).1
    · have hn : b ≠ 10 := by
        intro h
        subst h
        simp [unitFor] at h120
      rw [if_pos h120]
      simp only [renderChunks_append, List.append_assoc,
        show renderChunks [Chunk.openQ] = [34] from rfl,
        show renderChunks [Chunk.closeBlank] = [34, 10, 10] from rfl]
      rw [show ([34] ++ (renderChunks (unitFor 1 b).2 ++ ([34, 10, 10] ++ tail))
            : List Nat)
          = 34 :: (renderChunks (unitFor 1 b).2 ++ ([34, 10, 10] ++ tail)) from rfl]
      rw [decode_open, decode_unit b hb hb92 1]
      simp [hn, decode_quote_close]
    · rw [if_neg h120]
      simp only [renderChunks_append, List.append_assoc,
        show renderChunks [Chunk.openQ] = [34] from rfl]
      rw [show ([34] ++ (renderChunks (unitFor 1 b).2 ++ tail) : List Nat)
          = 34 :: (renderChunks (unitFor 1 b).2 ++ tail) from rfl]
      rw [decode_open, decode_unit b hb hb92 1]
      by_cases hn : b = 10
      · subst hn
        simp [unitFor]
      · have h0 : ¬ (unitFor 1 b).1 = 0 := by
          rw [unitFor_fst_eq_zero 1 b (by omega)]
          exact hn
        simp [hn, h0]
  · simp only [stepByte, hw, if_false]
    by_cases h120 : 120 ≤ (unitFor w b).1
    · have hn : b ≠ 10 := by
        intro h
        subst h
        simp [unitFor] at h120
      rw [if_pos h120]
      simp only [renderChunks_append, List.append_assoc, List.nil_append,
        show renderChunks [] = ([] : List Nat) from rfl,
        show renderChunks [Chunk.closeBlank] = [34, 10, 10] from rfl]
      rw [decode_unit b hb hb92 w]
      simp [hn, decode_quote_close]
    · rw [if_neg h120]
      simp only [renderChunks_append, List.append_assoc, List.nil_append,
        show renderChunks [] = ([] : List Nat) from rfl]
      rw [decode_unit b hb hb92 w]
      by_cases hn : b = 10
      · subst hn
        simp [unitFor]
      · have h0 : ¬ (unitFor w b).1 = 0 := by
          rw [unitFor_fst_eq_zero w b hw]
          exact hn
        simp [hn, h0]

theorem loop_decode (B : List Nat) (w : Nat) (h : ∀ b ∈ B, b < 128 ∧ b ≠ 92) :
    decodeRun (if w = 0 then DecState.outside else DecState.inside)
      (renderChunks ((encodeLoop w B).2
        ++ (if 0 < (encodeLoop w B).1 then [Chunk.closeBlank] else [])))
    = some B := by
  induction B generalizing w with
  | nil =>
    by_cases hw : w = 0
    · simp [encodeLoop, hw, renderChunks, renderChunk, decodeRun]
    · have h0 : 0 < w := by omega
      simp [encodeLoop, hw, h0, renderChunks, renderChunk, decodeRun]
  | cons b rest ih =>
    have hb := h b (by simp)
    have hrest : ∀ x ∈ rest, x < 128 ∧ x ≠ 92 := fun x hx => h x (by simp [hx])
    rw [encodeLoop_cons]
    dsimp only
    rw [List.append_assoc, renderChunks_append]
    rw [step_decode w b hb.1 hb.2]
    rw [ih (stepByte w b).1 hrest]
    rfl

theorem convertData_eq (B : List Nat) :
    convertData B = (encodeLoop 0 B).2
      ++ (if 0 < (encodeLoop 0 B).1 then [Chunk.closeBlank] else []) := by
  unfold convertData
  by_cases h : 0 < (encodeLoop 0 B).1 <;> simp [h]

/-- C1 counterexample: the byte sequence `[0x5C, 0x6E]` (a backslash
followed by the letter `n`) is emitted verbatim — the encoder never
escapes the backslash byte (the escaping table has no case for it) — so
the literal text contains the two characters `\n`, which the stated
escaping rules decode to the single newline byte `[0x0A]`, not to the
original two bytes: the round trip fails. -/
theorem literal_roundtrip_cex :
    decodeLit (literalText [92, 110]) = some [10]
    ∧ decodeLit (literalText [92, 110]) ≠ some [92, 110] := by
  decide

/-- C1 (amended): for every byte sequence whose bytes are below 0x80 and
different from 0x5C (backslash), decoding the literal text produced by the
byte-literal encoder through the stated escaping rules reproduces the
sequence exactly, and the decoded length equals the input length. Bytes
0x5C break the round trip because the encoder emits them unescaped, and
bytes ≥ 0x80 break it because the signed `char` sign-extends in the
hex-escape cast. -/
theorem literal_roundtrip (B : List Nat) (h : ∀ b ∈ B, b < 128 ∧ b ≠ 92) :
    decodeLit (literalText B) = some B
    ∧ (decodeLit (literalText B)).map List.length = some B.length := by
  have h1 : decodeLit (literalText B) = some B := by
    have h2 := loop_decode B 0 h
    rw [if_pos rfl] at h2
    rw [decodeLit, literalText, convertData_eq]
    exact h2
  exact ⟨h1, by rw [h1]; rfl⟩

theorem literal_roundtrip_witness :
    (∀ b ∈ [0, 9, 10, 13, 34, 65, 127], b < 128 ∧ b ≠ 92)
    ∧ (decodeLit (literalText [0, 9, 10, 13, 34, 65, 127])
        = some [0, 9, 10, 13, 34, 65, 127]
       ∧ (decodeLit (literalText [0, 9, 10, 13, 34, 65, 127])).map List.length
          = some ([0, 9, 10, 13, 34, 65, 127] : List Nat).length) :=
  ⟨by decide, literal_roundtrip [0, 9, 10, 13, 34, 65, 127] (by decide)⟩

/-- C2 (code-bug evaluation): for byte 0x80 the hex-escape branch emits
`\xffffff80` — 10 characters, not the declared 4 — because
`static_cast<unsigned int>(c)` sign-extends the signed `char`; yet the
same branch still adds only 4 to the width counter, contradicting its own
accounting (and the sibling legacy encoder's explicit `& 0xFF` mask). -/
theorem hexEscape_high_byte :
    hexEscape 128 = [92, 120, 102, 102, 102, 102, 102, 102, 56, 48]
    ∧ (hexEscape 128).length = 10
    ∧ (hexEscape 128).length ≠ 4
    ∧ (unitFor 1 128).1 = 1 + 4 := by
  decide

/-! ### The legacy numeric-array encoding -/

theorem maskFF_charToInt (b : Nat) (h : b < 256) : maskFF (charToInt b) = b := by
  unfold maskFF charToInt
  split_ifs <;> omega

theorem hexDigitCode_ne_comma : ∀ n < 16, hexDigitCode n ≠ 44 := by
  decide

theorem numericLoop_cons (count b : Nat) (rest : List Nat) :
    numericLoop count (b :: rest)
      = ((numericLoop (count + 1) rest).1,
         (if count % 20 = 0 then [10, 9, 9] else [])
           ++ byteConst b ++ [44] ++ (numericLoop (count + 1) rest).2) := rfl

theorem numericLoop_count (B : List Nat) (count : Nat) :
    (numericLoop count B).1 = count + B.length := by
  induction B generalizing count with
  | nil => simp [numericLoop]
  | cons b rest ih =>
    rw [numericLoop_cons]
    dsimp only
    rw [ih (count + 1)]
    simp
    omega

theorem decodeNum_skip (p : Prop) [Decidable p] (l : List Nat) :
    decodeNumRun NumState.start ((if p then [10, 9, 9] else []) ++ l)
      = decodeNumRun NumState.start l := by
  split_ifs <;> simp [decodeNumRun]

theorem decodeNum_const (b : Nat) (hb : b < 256) (l : List Nat) :
    decodeNumRun NumState.start (byteConst b ++ ([44] ++ l))
      = (decodeNumRun NumState.start l).map (fun bs => b :: bs) := by
  unfold byteConst
  rw [maskFF_charToInt b hb]
  by_cases h16 : b < 16
  · have hd := hexDigit_inv b h16
    simp [hexCodes_single b h16, decodeNumRun, hd.1, hd.2]
  · have hd1 := hexDigit_inv (b / 16) (by omega)
    have hd2 := hexDigit_inv (b % 16) (by omega)
    have hc := hexDigitCode_ne_comma (b / 16) (by omega)
    have hc2 := hexDigitCode_ne_comma (b % 16) (by omega)
    simp [hexCodes_pair b (by omega) hb, decodeNumRun, hd1.1, hd1.2, hd2.1, hd2.2, hc, hc2,
      Nat.div_add_mod]

theorem numericLoop_decode (B : List Nat) (count : Nat) (h : ∀ b ∈ B, b < 256) :
    decodeNumRun NumState.start (numericLoop count B).2 = some B := by
  induction B generalizing count with
  | nil => simp [numericLoop, decodeNumRun]
  | cons b rest ih =>
    have hb := h b (by simp)
    have hrest : ∀ x ∈ rest, x < 256 := fun x hx => h x (by simp [hx])
    rw [numericLoop_cons]
    dsimp only
    rw [List.append_assoc, List.append_assoc, decodeNum_skip, decodeNum_const b hb]
    rw [ih (count + 1) hrest]
    rfl

/-- C8 counterexample: the legacy numeric encoder does NOT render every
byte as a fixed two-hex-digit constant: `std::hex` prints minimal width,
so byte 0x05 is emitted as the three characters `0x5` (one hex digit),
not `0x05`. -/
theorem numeric_width_cex :
    byteConst 5 = [48, 120, 53]
    ∧ byteConst 5 ≠ [48, 120, 48, 53]
    ∧ (byteConst 16).length ≠ (byteConst 5).length := by
  decide

/-- C8 (amended): the legacy numeric-array style renders each byte as a
`0x`-prefixed lowercase-hex constant of one or two minimal-width digits
(not fixed two digits), separated by commas, with a row break before
every 20th constant and no distinction between printable and
non-printable bytes; the style still guarantees the round-trip invariant
— decoding the emitted constants by value reproduces the byte sequence —
and the declared `data_size` equals the byte count, which also equals the
loop's final `char_count` (the encoder's own `assert`). -/
theorem numeric_roundtrip (B : List Nat) (h : ∀ b ∈ B, b < 256) :
    decodeNumeric (numericLiteral B) = some B
    ∧ numericDataSize B = B.length
    ∧ (numericLoop 0 B).1 = numericDataSize B
    ∧ (∀ b ∈ B, 1 ≤ (hexCodes (maskFF (charToInt b))).length
        ∧ (hexCodes (maskFF (charToInt b))).length ≤ 2
        ∧ (hexCodes (maskFF (charToInt b))).all
            (fun c => (48 ≤ c && c ≤ 57) || (97 ≤ c && c ≤ 102)) = true) := by
  have hdig : ∀ n < 256, 1 ≤ (hexCodes n).length ∧ (hexCodes n).length ≤ 2
      ∧ (hexCodes n).all (fun c => (48 ≤ c && c ≤ 57) || (97 ≤ c && c ≤ 102)) = true := by
    intro n hn
    have hd : ∀ m < 16, (48 ≤ hexDigitCode m ∧ hexDigitCode m ≤ 57)
        ∨ (97 ≤ hexDigitCode m ∧ hexDigitCode m ≤ 102) := by decide
    by_cases h16 : n < 16
    · simp [hexCodes_single n h16]
      exact hd n h16
    · simp [hexCodes_pair n (by omega) hn]
      exact ⟨hd (n / 16) (by omega), hd (n % 16) (by omega)⟩
  refine ⟨numericLoop_decode B 0 h, rfl, ?_, ?_⟩
  · rw [numericLoop_count]
    simp [numericDataSize]
  · intro b hbB
    rw [maskFF_charToInt b (h b hbB)]
    exact hdig b (h b hbB)

theorem numeric_roundtrip_witness :
    (∀ b ∈ [0, 5, 16, 92, 128, 255], b < 256)
    ∧ (decodeNumeric (numericLiteral [0, 5, 16, 92, 128, 255])
        = some [0, 5, 16, 92, 128, 255]
       ∧ numericDataSize [0, 5, 16, 92, 128, 255] = [0, 5, 16, 92, 128, 255].length
       ∧ (numericLoop 0 [0, 5, 16, 92, 128, 255]).1
          = numericDataSize [0, 5, 16, 92, 128, 255]
       ∧ (∀ b ∈ [0, 5, 16, 92, 128, 255],
            1 ≤ (hexCodes (maskFF (charToInt b))).length
            ∧ (hexCodes (maskFF (charToInt b))).length ≤ 2
            ∧ (hexCodes (maskFF (charToInt b))).all
                (fun c => (48 ≤ c && c ≤ 57) || (97 ≤ c && c ≤ 102)) = true)) :=
  ⟨by decide, numeric_roundtrip [0, 5, 16, 92, 128, 255] (by decide)⟩
